import Mathlib

/-!
# Verification of the clio AMMInfo handler core and the config-key Tokenizer

Shallow embedding of:
- `src/rpc/handlers/AMMInfo.cpp` (`AMMInfoHandler::process`, the two
  `tag_invoke` JSON adapters),
- `src/rpc/AMMHelpers.cpp` (`getAmmPoolHolds`, `getAmmLpHolds`),
- `src/util/config/detail/Helpers.h` (`Tokenizer`).

Collaborators that live outside these files (the ripple protocol library and
clio's RPCHelpers) are modelled from the specification; each such definition
carries a doc comment starting with `Modelled from the spec:`.

Machine integers are modelled as `Nat`/`Int`; account identifiers, currency
codes and hashes are modelled as `Nat` (the source treats them as opaque
fixed-width blobs compared only for equality/order).
-/

/-- An account identifier (ripple `AccountID`, an opaque 160-bit value). -/
abbrev AccountID := Nat

/-- A currency code (ripple `Currency`, an opaque 160-bit value). -/
abbrev Currency := Nat

/-- The native (XRP) currency code: the all-zero currency. -/
def xrpCurrency : Currency := 0

/-- The native-asset sentinel account (`xrpAccount()`, the all-zero account). -/
def xrpAccountID : AccountID := 0

/-- `ripple::Issue`: a currency code plus issuing account. -/
structure Issue where
  currency : Currency
  account : AccountID
  deriving DecidableEq, Repr

/-- `ripple::xrpIssue()`: the native-asset sentinel identity. -/
def xrpIssue : Issue := { currency := xrpCurrency, account := xrpAccountID }

/-- `ripple::STAmount`: a value tagged with its asset identity. -/
structure STAmount where
  issue : Issue
  value : Int
  deriving DecidableEq, Repr

/-- `ripple::isXRP` on an `STAmount`: the amount is native. -/
def STAmount.isXRP (a : STAmount) : Bool := a.issue.currency == xrpCurrency

/-- One entry of the AMM entry's `sfVoteSlots` array. -/
structure VoteEntry where
  account : AccountID
  tradingFee : Nat
  voteWeight : Nat
  deriving DecidableEq, Repr

/-- The AMM entry's optional `sfAuctionSlot` inner object.  The `sfAccount`
field of the inner object is itself optional (the handler checks its presence
at AMMInfo.cpp:108). -/
structure AuctionSlotData where
  account : Option AccountID
  price : STAmount
  discountedFee : Nat
  expiration : Nat
  authAccounts : Option (List AccountID)
  deriving DecidableEq, Repr

/-- The decoded AMM ledger entry: exactly the fields the handler reads
(`sfAccount`, `sfAsset`, `sfAsset2`, `sfTradingFee`, `sfLPTokenBalance`,
`sfVoteSlots`, `sfAuctionSlot`). -/
structure AMMEntryData where
  account : AccountID
  asset : Issue
  asset2 : Issue
  tradingFee : Nat
  lpTokenBalance : STAmount
  voteSlots : Option (List VoteEntry)
  auctionSlot : Option AuctionSlotData
  deriving DecidableEq, Repr

/-- A deterministic storage key (`ripple::Keylet`'s key part), modelled as an
injective constructor over the object's defining attributes. -/
inductive ObjectKey where
  | account (a : AccountID)
  | amm (lo hi : Issue)
  | line (holder issuer : AccountID) (cur : Currency)
  deriving DecidableEq, Repr

/-- A typed decoded ledger object, standing for the opaque blob the store
returns.  The handler decodes blobs via `ripple::SLE`; the decode itself is an
external deterministic routine, so the store is modelled as holding decoded
objects directly. -/
inductive LedgerObject where
  | accountRoot (balance : Int) (globalFreeze : Bool)
  | rippleState (balance : Int) (frozen : Bool)
  | amm (entry : AMMEntryData)
  deriving DecidableEq, Repr

/-- `ripple::LedgerInfo`: the header fields the handler uses. -/
structure LedgerInfo where
  seq : Nat
  parentCloseTime : Int
  deriving DecidableEq, Repr

/-- The backing store's known sequence range. -/
structure LedgerRange where
  minSequence : Nat
  maxSequence : Nat
  deriving DecidableEq, Repr

/-- The backend store collaborator: known range, headers by sequence, headers
by hash, and versioned objects (`fetchLedgerObject(key, sequence)`). -/
structure Backend where
  range : Option LedgerRange
  headers : Nat → Option LedgerInfo
  headerByHash : Nat → Option LedgerInfo
  objects : ObjectKey → Nat → Option LedgerObject

/-- Why the pipeline issued a given object read (instrumentation recording the
call site inside `AMMInfoHandler::process`). -/
inductive ReadPurpose where
  | accountCheck
  | ammFetch
  | ownerFetch
  | poolHold
  | lpHold
  | frozenCheck
  deriving DecidableEq, Repr

/-- One backend access performed while serving a request. -/
inductive ReadOp where
  | rangeQuery
  | headerFetch
  | objectFetch (purpose : ReadPurpose) (key : ObjectKey) (seq : Nat)
  deriving DecidableEq, Repr

/-- The read uses sequence `s` if it is a versioned object read; range and
header reads are the snapshot resolution itself. -/
def ReadOp.pinnedTo (s : Nat) : ReadOp → Prop
  | .objectFetch _ _ q => q = s
  | _ => True

instance (s : Nat) (op : ReadOp) : Decidable (ReadOp.pinnedTo s op) := by
  cases op <;> simp [ReadOp.pinnedTo] <;> infer_instance

/-- The read is the LP-holds read. -/
def ReadOp.isLpHoldRead : ReadOp → Bool
  | .objectFetch p _ _ => p == ReadPurpose.lpHold
  | _ => false

/-- The error surface of the pipeline. -/
inductive Status where
  | notReady
  | actNotFound
  | lgrNotFound
  | corruptEntry
  deriving DecidableEq, Repr

/-- A JSON value, with the external formatters (`to_string` on accounts and
keys, `STAmount::getJson`, `to_iso8601`) modelled as injective constructors. -/
inductive Json where
  | num (n : Int)
  | bool (b : Bool)
  | str (s : String)
  | acct (a : AccountID)
  | keyStr (k : ObjectKey)
  | amount (a : STAmount)
  | isoTime (t : Nat)
  | arr (xs : List Json)
  | obj (fields : List (String × Json))

/-- `AMMInfoHandler::Input` after JSON validation/parsing. -/
structure Input where
  ledgerHash : Option Nat
  ledgerIndex : Option Nat
  issue1 : Issue
  issue2 : Issue
  accountID : Option AccountID

/-- `AMMInfoHandler::Output` (AMMInfo.h), exactly the fields `process` fills. -/
structure Output where
  ledgerIndex : Nat
  amount1 : Json
  amount2 : Json
  lpToken : Json
  tradingFee : Nat
  ammAccount : AccountID
  voteSlots : List Json
  auctionSlot : Option Json
  asset1Frozen : Option Bool
  asset2Frozen : Option Bool
  ammID : ObjectKey
  validated : Bool

/-- An asset descriptor of the inbound request: `currency` plus optional
`issuer` (already syntax-validated upstream). -/
structure AssetDescriptor where
  currency : Currency
  issuer : Option AccountID
  deriving DecidableEq, Repr

/-- The `getIssue` lambda of `tag_invoke(value_to_tag<AMMInfoHandler::Input>)`
(AMMInfo.cpp:193-200), translated verbatim: it starts from `xrpIssue()` and
overwrites only the currency from the request; the request's `issuer` member
is never read. -/
def getIssue (d : AssetDescriptor) : Issue :=
  { xrpIssue with currency := d.currency }

/-- Strict lexicographic comparison on `(currency, account)`, mirroring
`ripple::Issue`'s `operator<`. -/
def issueLt (a b : Issue) : Prop :=
  a.currency < b.currency ∨ (a.currency = b.currency ∧ a.account < b.account)

instance (a b : Issue) : Decidable (issueLt a b) := by
  unfold issueLt; infer_instance

/-- Orders a pair of issues canonically (`std::minmax`). -/
def issuePairOrdered (a b : Issue) : Issue × Issue :=
  if issueLt b a then (b, a) else (a, b)

/-- Modelled from the spec: `keylet::amm` (ripple protocol library, not under
src/).  "Pure function mapping `(AssetIdentity, AssetIdentity) -> ObjectKey`
for the AMM object, independent of argument order"; the underlying hash of the
canonically ordered pair is modelled as the injective `ObjectKey.amm`
constructor applied to the sorted pair. -/
def keyletAmm (i1 i2 : Issue) : ObjectKey :=
  let p := issuePairOrdered i1 i2
  ObjectKey.amm p.1 p.2

/-- Modelled from the spec: `ripple::ammLPTCurrency` (ripple protocol library,
not under src/).  "A canonical, order-independent combination function"
deriving the synthetic LP-token currency from the two currency codes; the
concrete hash is modelled as an injective pairing of the sorted pair, offset
so the result is never the native currency. -/
def ammLPTCurrency (c1 c2 : Currency) : Currency :=
  Nat.pair (min c1 c2) (max c1 c2) + 1

/-- `AUCTION_SLOT_TIME_INTERVALS` (ripple protocol constant): the fixed number
of equal sub-intervals of an auction slot's active window. -/
def AUCTION_SLOT_TIME_INTERVALS : Nat := 20

/-- Modelled from the spec: the protocol's fixed sub-interval length in
seconds (total active window divided by the number of sub-intervals).  The
spec fixes only the sub-interval count; the concrete length mirrors the
protocol's 24-hour window. -/
def AUCTION_SLOT_INTERVAL_DURATION : Int := 4320

/-- Modelled from the spec: the index computation of `ammAuctionTimeSlot`
(ripple protocol library, not under src/): "compute the zero-based
sub-interval index `floor((parentCloseTime - slotStart) / subIntervalDuration)`.
If the computed index is negative or exceeds the maximum sub-interval count,
the slot is considered outside its active window and the projector returns the
sentinel" (`none`). -/
def ammAuctionTimeSlotIdx (parentCloseTime slotStart d : Int) : Option Nat :=
  let idx := Int.fdiv (parentCloseTime - slotStart) d
  if 0 ≤ idx ∧ idx < (AUCTION_SLOT_TIME_INTERVALS : Int) then some idx.toNat
  else none

/-- Modelled from the spec: `ammAuctionTimeSlot(current, auctionSlot)` — the
slot's start time is derived from `sfExpiration` (expiration minus the total
active window). -/
def ammAuctionTimeSlot (current : Int) (slot : AuctionSlotData) : Option Nat :=
  ammAuctionTimeSlotIdx current
    ((slot.expiration : Int) -
      (AUCTION_SLOT_TIME_INTERVALS : Int) * AUCTION_SLOT_INTERVAL_DURATION)
    AUCTION_SLOT_INTERVAL_DURATION

/-- Modelled from the spec: `accountHolds` (clio rpc/RPCHelpers, not under
src/): "Native-asset holdings are read from the account's direct balance;
issued-asset holdings are read from the corresponding trust-line-like object."
Absent objects yield a zero balance.  Returns the amount together with the one
backend read it issues. -/
def accountHolds (b : Backend) (seq : Nat) (purpose : ReadPurpose)
    (account : AccountID) (currency : Currency) (issuer : AccountID) :
    STAmount × ReadOp :=
  if currency = xrpCurrency then
    let bal := match b.objects (ObjectKey.account account) seq with
      | some (LedgerObject.accountRoot bal _) => bal
      | _ => 0
    (⟨xrpIssue, bal⟩, ReadOp.objectFetch purpose (ObjectKey.account account) seq)
  else
    let key := ObjectKey.line account issuer currency
    let bal := match b.objects key seq with
      | some (LedgerObject.rippleState bal _) => bal
      | _ => 0
    (⟨⟨currency, issuer⟩, bal⟩, ReadOp.objectFetch purpose key seq)

/-- Modelled from the spec: `isFrozen` (clio rpc/RPCHelpers, not under src/):
"Checks global-freeze and individual trust-line-freeze flags at
`snapshot.sequence`."  Returns the flag together with the reads it issues. -/
def isFrozen (b : Backend) (seq : Nat) (account : AccountID)
    (currency : Currency) (issuer : AccountID) : Bool × List ReadOp :=
  let globalFreeze := match b.objects (ObjectKey.account issuer) seq with
    | some (LedgerObject.accountRoot _ gf) => gf
    | _ => false
  let lineFrozen := match b.objects (ObjectKey.line account issuer currency) seq with
    | some (LedgerObject.rippleState _ fr) => fr
    | _ => false
  (globalFreeze || lineFrozen,
   [ReadOp.objectFetch .frozenCheck (ObjectKey.account issuer) seq,
    ReadOp.objectFetch .frozenCheck (ObjectKey.line account issuer currency) seq])

/-- `rpc::getAmmPoolHolds` (AMMHelpers.cpp:28-43): one `accountHolds` read per
pooled asset, both at the same pinned sequence. -/
def getAmmPoolHolds (b : Backend) (seq : Nat) (ammAccountID : AccountID)
    (issue1 issue2 : Issue) : (STAmount × STAmount) × List ReadOp :=
  let a1 := accountHolds b seq .poolHold ammAccountID issue1.currency issue1.account
  let a2 := accountHolds b seq .poolHold ammAccountID issue2.currency issue2.account
  ((a1.1, a2.1), [a1.2, a2.2])

/-- `rpc::getAmmLpHolds` (currency overload, AMMHelpers.cpp:45-58): derives
the synthetic LP-token currency and reads the holder's holding of it issued by
the AMM account. -/
def getAmmLpHoldsCur (b : Backend) (seq : Nat) (cur1 cur2 : Currency)
    (ammAccount lpAccount : AccountID) : STAmount × ReadOp :=
  let lptCurrency := ammLPTCurrency cur1 cur2
  accountHolds b seq .lpHold lpAccount lptCurrency ammAccount

/-- `rpc::getAmmLpHolds` (SLE overload, AMMHelpers.cpp:60-78): reads the
currencies and AMM account out of the decoded AMM entry. -/
def getAmmLpHolds (b : Backend) (seq : Nat) (ammSle : AMMEntryData)
    (lpAccount : AccountID) : STAmount × ReadOp :=
  getAmmLpHoldsCur b seq ammSle.asset.currency ammSle.asset2.currency
    ammSle.account lpAccount

/-- Modelled from the spec: `getLedgerInfoFromHashOrSeq` (clio rpc/RPCHelpers,
not under src/): "Resolves 'validated' to the store's current maximum
validated sequence; resolves a hash or explicit index to the matching header,
failing with `LedgerNotFound` if outside the known range or absent." -/
def getLedgerInfoFromHashOrSeq (b : Backend) (ledgerHash : Option Nat)
    (ledgerIndex : Option Nat) (maxSeq : Nat) :
    Except Status LedgerInfo × List ReadOp :=
  match ledgerHash with
  | some h =>
    match b.headerByHash h with
    | some info =>
      if info.seq ≤ maxSeq then (.ok info, [ReadOp.headerFetch])
      else (.error .lgrNotFound, [ReadOp.headerFetch])
    | none => (.error .lgrNotFound, [ReadOp.headerFetch])
  | none =>
    let seq := ledgerIndex.getD maxSeq
    if maxSeq < seq then (.error .lgrNotFound, [])
    else
      match b.headers seq with
      | some info => (.ok info, [ReadOp.headerFetch])
      | none => (.error .lgrNotFound, [ReadOp.headerFetch])

/-- Modelled from the spec: the entry decoder (§4.4): the blob fetched at the
AMM key must decode as an AMM entry; any other shape "fails with
`CorruptEntry`". -/
def decodeAMM : LedgerObject → Except Status AMMEntryData
  | .amm e => .ok e
  | _ => .error .corruptEntry

/-- The vote-slot JSON built in the loop at AMMInfo.cpp:94-102. -/
def voteJson (v : VoteEntry) : Json :=
  Json.obj
    [("account", Json.acct v.account),
     ("trading_fee", Json.num (v.tradingFee : Int)),
     ("vote_weight", Json.num (v.voteWeight : Int))]

/-- The fields of the `auction_slot` JSON object built at AMMInfo.cpp:110-128:
`time_interval` substitutes `AUCTION_SLOT_TIME_INTERVALS` when the projector
reports no active interval; the remaining fields are verbatim from the entry;
`auth_accounts` appears only when present on the entry. -/
def auctionJsonFields (parentCloseTime : Int) (slot : AuctionSlotData)
    (slotAccount : AccountID) : List (String × Json) :=
  let timeSlot := ammAuctionTimeSlot parentCloseTime slot
  [("time_interval",
      Json.num ((timeSlot.getD AUCTION_SLOT_TIME_INTERVALS : Nat) : Int)),
   ("price", Json.amount slot.price),
   ("discounted_fee", Json.num (slot.discountedFee : Int)),
   ("account", Json.acct slotAccount),
   ("expiration", Json.isoTime slot.expiration)]
  ++ (match slot.authAccounts with
      | some accts =>
        [("auth_accounts",
          Json.arr (accts.map (fun a => Json.obj [("account", Json.acct a)])))]
      | none => [])

/-- The `auction_slot` JSON object (AMMInfo.cpp:110-130). -/
def buildAuctionJson (parentCloseTime : Int) (slot : AuctionSlotData)
    (slotAccount : AccountID) : Json :=
  Json.obj (auctionJsonFields parentCloseTime slot slotAccount)

/-- The successful `Output` assembled at AMMInfo.cpp:84-143, as a function of
the resolved header and the decoded AMM entry. -/
def ammResponse (b : Backend) (lgr : LedgerInfo) (input : Input)
    (amm : AMMEntryData) : Output :=
  let ammKey := keyletAmm input.issue1 input.issue2
  let accID := amm.account
  let balances := getAmmPoolHolds b lgr.seq accID input.issue1 input.issue2
  let asset1Balance := balances.1.1
  let asset2Balance := balances.1.2
  let lptAMMBalance := match input.accountID with
    | some a => (getAmmLpHolds b lgr.seq amm a).1
    | none => amm.lpTokenBalance
  { ledgerIndex := lgr.seq
    amount1 := Json.amount asset1Balance
    amount2 := Json.amount asset2Balance
    lpToken := Json.amount lptAMMBalance
    tradingFee := amm.tradingFee
    ammAccount := accID
    voteSlots := match amm.voteSlots with
      | some vs => vs.map voteJson
      | none => []
    auctionSlot := match amm.auctionSlot with
      | some slot =>
        match slot.account with
        | some acct => some (buildAuctionJson lgr.parentCloseTime slot acct)
        | none => none
      | none => none
    asset1Frozen := if asset1Balance.isXRP then none
      else some (isFrozen b lgr.seq accID input.issue1.currency input.issue1.account).1
    asset2Frozen := if asset2Balance.isXRP then none
      else some (isFrozen b lgr.seq accID input.issue2.currency input.issue2.account).1
    ammID := ammKey
    validated := true }

/-- The backend reads issued on the successful path of AMMInfo.cpp:64-143, in
program order: AMM fetch, owner-account fetch, the two pool-holds reads, the
LP-holds read (only with an account filter), then the frozen checks (only for
non-native assets). -/
def ammReadLog (b : Backend) (lgr : LedgerInfo) (input : Input)
    (amm : AMMEntryData) : List ReadOp :=
  let ammKey := keyletAmm input.issue1 input.issue2
  let accID := amm.account
  let balances := getAmmPoolHolds b lgr.seq accID input.issue1 input.issue2
  [ReadOp.objectFetch .ammFetch ammKey lgr.seq,
   ReadOp.objectFetch .ownerFetch (ObjectKey.account accID) lgr.seq]
  ++ balances.2
  ++ (match input.accountID with
      | some a => [(getAmmLpHolds b lgr.seq amm a).2]
      | none => [])
  ++ (if (balances.1.1).isXRP then []
      else (isFrozen b lgr.seq accID input.issue1.currency input.issue1.account).2)
  ++ (if (balances.1.2).isXRP then []
      else (isFrozen b lgr.seq accID input.issue2.currency input.issue2.account).2)

/-- AMMInfo.cpp:64-143: fetch the AMM object at the pinned sequence, decode
it, require the owning account to exist, then assemble the response. -/
def processAMM (b : Backend) (lgr : LedgerInfo) (input : Input) :
    Except Status Output × List ReadOp :=
  match b.objects (keyletAmm input.issue1 input.issue2) lgr.seq with
  | none =>
    (.error .actNotFound,
     [ReadOp.objectFetch .ammFetch (keyletAmm input.issue1 input.issue2) lgr.seq])
  | some obj =>
    match decodeAMM obj with
    | .error st =>
      (.error st,
       [ReadOp.objectFetch .ammFetch (keyletAmm input.issue1 input.issue2) lgr.seq])
    | .ok amm =>
      match b.objects (ObjectKey.account amm.account) lgr.seq with
      | none =>
        (.error .actNotFound,
         [ReadOp.objectFetch .ammFetch (keyletAmm input.issue1 input.issue2) lgr.seq,
          ReadOp.objectFetch .ownerFetch (ObjectKey.account amm.account) lgr.seq])
      | some _ => (.ok (ammResponse b lgr input amm), ammReadLog b lgr input amm)

/-- AMMInfo.cpp:57-62: with an `account` filter, the account must exist at the
pinned sequence before any AMM lookup. -/
def processWithLedger (b : Backend) (lgr : LedgerInfo) (input : Input) :
    Except Status Output × List ReadOp :=
  match input.accountID with
  | some a =>
    match b.objects (ObjectKey.account a) lgr.seq with
    | none =>
      (.error .actNotFound,
       [ReadOp.objectFetch .accountCheck (ObjectKey.account a) lgr.seq])
    | some _ =>
      ((processAMM b lgr input).1,
       ReadOp.objectFetch .accountCheck (ObjectKey.account a) lgr.seq ::
         (processAMM b lgr input).2)
  | none => processAMM b lgr input

/-- AMMInfo.cpp:49-55: resolve the snapshot from hash/index/"validated"
against the known range's maximum, then continue at its sequence. -/
def processResolved (b : Backend) (rg : LedgerRange) (input : Input) :
    Except Status Output × List ReadOp :=
  match getLedgerInfoFromHashOrSeq b input.ledgerHash input.ledgerIndex rg.maxSequence with
  | (.error st, hlog) => (.error st, hlog)
  | (.ok lgrInfo, hlog) =>
    ((processWithLedger b lgrInfo input).1,
     hlog ++ (processWithLedger b lgrInfo input).2)

/-- `AMMInfoHandler::process` given a known range: the range query
(AMMInfo.cpp:48) is the first backend access of the request. -/
def process (b : Backend) (rg : LedgerRange) (input : Input) :
    Except Status Output × List ReadOp :=
  ((processResolved b rg input).1,
   ReadOp.rangeQuery :: (processResolved b rg input).2)

/-- Modelled from the spec: the dispatch layer's readiness gate (not under
src/) rejects a request with `NotReady` when the store has no known sequence
range, before the handler body runs; `process` itself dereferences the range
unconditionally (AMMInfo.cpp:50). -/
def handleRequest (b : Backend) (input : Input) :
    Except Status Output × List ReadOp :=
  match b.range with
  | none => (.error .notReady, [ReadOp.rangeQuery])
  | some rg => process b rg input

/-- The `amm` sub-object of `tag_invoke(value_from_tag, Output)`
(AMMInfo.cpp:149-167): five unconditional members, then `auction_slot`,
`vote_slots`, `asset_frozen`, `asset2_frozen` each only when the underlying
datum is present/non-empty. -/
def ammJsonFields (o : Output) : List (String × Json) :=
  [("lp_token", o.lpToken),
   ("amount", o.amount1),
   ("amount2", o.amount2),
   ("account", Json.acct o.ammAccount),
   ("trading_fee", Json.num (o.tradingFee : Int))]
  ++ (match o.auctionSlot with
      | some a => [("auction_slot", a)]
      | none => [])
  ++ (if o.voteSlots.isEmpty then [] else [("vote_slots", Json.arr o.voteSlots)])
  ++ (match o.asset1Frozen with
      | some f => [("asset_frozen", Json.bool f)]
      | none => [])
  ++ (match o.asset2Frozen with
      | some f => [("asset2_frozen", Json.bool f)]
      | none => [])

/-- The full serialized response (AMMInfo.cpp:169-173). -/
def serializeOutput (o : Output) : Json :=
  Json.obj
    [("amm", Json.obj (ammJsonFields o)),
     ("ledger_index", Json.num (o.ledgerIndex : Int)),
     ("validated", Json.bool o.validated)]

/-- Whether a JSON object member named `k` is present. -/
def hasKey (fields : List (String × Json)) (k : String) : Bool :=
  fields.any (fun p => p.1 == k)

/-! ## The configuration-key Tokenizer (util/config/detail/Helpers.h:53-96) -/

/-- The two `KeyException` messages the Tokenizer constructor can throw. -/
inductive KeyError where
  | emptyKey
  | emptyToken
  deriving DecidableEq, Repr

/-- `Tokenizer::saveToken` (Helpers.h:88-95): an empty pending token throws;
otherwise it is pushed onto the queue and cleared. -/
def saveToken (tok : List Char) (acc : List (List Char)) :
    Except KeyError (List (List Char)) :=
  if tok = [] then .error .emptyToken else .ok (acc ++ [tok])

/-- The constructor's character loop (Helpers.h:66-72): a separator closes the
pending token via `saveToken`; any other character is appended to it. -/
def tokLoop (sep : Char) (cs : List Char) (tok : List Char)
    (acc : List (List Char)) : Except KeyError (List (List Char)) :=
  match cs with
  | [] => saveToken tok acc
  | c :: rest =>
    if c = sep then
      match saveToken tok acc with
      | .error e => .error e
      | .ok acc2 => tokLoop sep rest [] acc2
    else tokLoop sep rest (tok ++ [c]) acc

/-- The `Tokenizer` constructor (Helpers.h:61-75): an empty key throws; then
the loop runs and the final `saveToken` closes the last token. -/
def mkTokenizer (sep : Char) (key : List Char) :
    Except KeyError (List (List Char)) :=
  if key = [] then .error .emptyKey else tokLoop sep key [] []

/-- `Tokenizer::next` (Helpers.h:77-85) on the token queue: pops the front, or
returns `none` when exhausted. -/
def tokenizerNext (q : List (List Char)) : Option (List Char) × List (List Char) :=
  match q with
  | [] => (none, [])
  | t :: ts => (some t, ts)

/-- The value returned by the `(n+1)`-th successive call to `next`, starting
from queue `q`. -/
def drain (q : List (List Char)) : Nat → Option (List Char)
  | 0 => (tokenizerNext q).1
  | n + 1 => drain (tokenizerNext q).2 n

/-- The separator-delimited segments of a key, as a reference definition: the
empty key has one empty segment, a leading separator contributes an empty
segment, and so on. -/
def splitSep (sep : Char) : List Char → List (List Char)
  | [] => [[]]
  | c :: cs =>
    if c = sep then [] :: splitSep sep cs
    else
      match splitSep sep cs with
      | [] => [[c]]
      | t :: ts => (c :: t) :: ts

/-- Prepends `tok` onto the first segment of a segment list. -/
def consHead (tok : List Char) : List (List Char) → List (List Char)
  | [] => [tok]
  | s :: ts => (tok ++ s) :: ts

/-! ## Concrete fixtures used by the witness theorems -/

/-- A non-native asset identity used by the witnesses. -/
def wIssue2 : Issue := { currency := 1, account := 7 }

/-- The auction slot stored on the witness AMM entry. -/
def wSlot : AuctionSlotData :=
  { account := some 8
    price := { issue := xrpIssue, value := 25 }
    discountedFee := 3
    expiration := 100000
    authAccounts := none }

/-- The witness AMM entry: XRP/(1,7) pool, LP balance 1000, one auction slot,
no vote slots. -/
def wAmmEntry : AMMEntryData :=
  { account := 5
    asset := xrpIssue
    asset2 := wIssue2
    tradingFee := 30
    lpTokenBalance :=
      { issue := { currency := ammLPTCurrency xrpCurrency 1, account := 5 }
        value := 1000 }
    voteSlots := none
    auctionSlot := some wSlot }

/-- A small concrete store: one validated ledger (sequence 10), the witness
AMM and its companion objects. -/
def wBackend : Backend :=
  { range := some { minSequence := 1, maxSequence := 10 }
    headers := fun s =>
      if s = 10 then some { seq := 10, parentCloseTime := 500 } else none
    headerByHash := fun _ => none
    objects := fun k s =>
      if s = 10 then
        if k = keyletAmm xrpIssue wIssue2 then some (LedgerObject.amm wAmmEntry)
        else if k = ObjectKey.account 5 then some (LedgerObject.accountRoot 100 false)
        else if k = ObjectKey.line 5 7 1 then some (LedgerObject.rippleState 50 false)
        else if k = ObjectKey.account 7 then some (LedgerObject.accountRoot 0 false)
        else if k = ObjectKey.account 9 then some (LedgerObject.accountRoot 77 false)
        else if k = ObjectKey.line 9 5 (ammLPTCurrency 0 1) then
          some (LedgerObject.rippleState 42 false)
        else none
      else none }

/-- The same store with account 9 absent (for the account-gate witness). -/
def wBackendNoAcct : Backend :=
  { wBackend with
    objects := fun k s =>
      if k = ObjectKey.account 9 then none else wBackend.objects k s }

/-- A store that reports no known sequence range. -/
def wBackendEmpty : Backend :=
  { range := none
    headers := fun _ => none
    headerByHash := fun _ => none
    objects := fun _ _ => none }

/-- The witness request: validated ledger, XRP/(1,7) pair, no account filter. -/
def wInput : Input :=
  { ledgerHash := none
    ledgerIndex := none
    issue1 := xrpIssue
    issue2 := wIssue2
    accountID := none }

/-- The witness request with an account filter. -/
def wInputAcct : Input := { wInput with accountID := some 9 }

/-- The resolved witness header. -/
def wLgr : LedgerInfo := { seq := 10, parentCloseTime := 500 }

/-- The successful response of the witness request without an account filter. -/
def wResp : Output := ammResponse wBackend wLgr wInput wAmmEntry

/-- The read log of the witness request without an account filter. -/
def wLog : List ReadOp :=
  [ReadOp.rangeQuery,
   ReadOp.headerFetch,
   ReadOp.objectFetch .ammFetch (ObjectKey.amm xrpIssue wIssue2) 10,
   ReadOp.objectFetch .ownerFetch (ObjectKey.account 5) 10,
   ReadOp.objectFetch .poolHold (ObjectKey.account 5) 10,
   ReadOp.objectFetch .poolHold (ObjectKey.line 5 7 1) 10,
   ReadOp.objectFetch .frozenCheck (ObjectKey.account 7) 10,
   ReadOp.objectFetch .frozenCheck (ObjectKey.line 5 7 1) 10]

/-- The successful response of the witness request with an account filter. -/
def wRespAcct : Output := ammResponse wBackend wLgr wInputAcct wAmmEntry

/-- The read log of the witness request with an account filter. -/
def wLogAcct : List ReadOp :=
  [ReadOp.rangeQuery,
   ReadOp.headerFetch,
   ReadOp.objectFetch .accountCheck (ObjectKey.account 9) 10,
   ReadOp.objectFetch .ammFetch (ObjectKey.amm xrpIssue wIssue2) 10,
   ReadOp.objectFetch .ownerFetch (ObjectKey.account 5) 10,
   ReadOp.objectFetch .poolHold (ObjectKey.account 5) 10,
   ReadOp.objectFetch .poolHold (ObjectKey.line 5 7 1) 10,
   ReadOp.objectFetch .lpHold (ObjectKey.line 9 5 (ammLPTCurrency 0 1)) 10,
   ReadOp.objectFetch .frozenCheck (ObjectKey.account 7) 10,
   ReadOp.objectFetch .frozenCheck (ObjectKey.line 5 7 1) 10]

/-! ## Helper lemmas -/

theorem accountHolds_snd (b : Backend) (s : Nat) (p : ReadPurpose)
    (a : AccountID) (c : Currency) (i : AccountID) :
    (accountHolds b s p a c i).2 =
      ReadOp.objectFetch p
        (if c = xrpCurrency then ObjectKey.account a else ObjectKey.line a i c) s := by
  unfold accountHolds
  split <;> simp_all

theorem accountHolds_currency (b : Backend) (s : Nat) (p : ReadPurpose)
    (a : AccountID) (c : Currency) (i : AccountID) :
    (accountHolds b s p a c i).1.issue.currency = c := by
  unfold accountHolds
  split <;> simp_all [xrpIssue]

theorem accountHolds_isXRP (b : Backend) (s : Nat) (p : ReadPurpose)
    (a : AccountID) (c : Currency) (i : AccountID) :
    (accountHolds b s p a c i).1.isXRP = (c == xrpCurrency) := by
  rw [STAmount.isXRP, accountHolds_currency]

theorem isFrozen_snd (b : Backend) (s : Nat) (a : AccountID) (c : Currency)
    (i : AccountID) :
    (isFrozen b s a c i).2 =
      [ReadOp.objectFetch .frozenCheck (ObjectKey.account i) s,
       ReadOp.objectFetch .frozenCheck (ObjectKey.line a i c) s] := rfl

theorem getLedgerInfo_log (b : Backend) (lh li : Option Nat) (m : Nat) :
    ∀ op ∈ (getLedgerInfoFromHashOrSeq b lh li m).2, op = ReadOp.headerFetch := by
  unfold getLedgerInfoFromHashOrSeq
  split
  · split
    · split <;> simp
    · simp
  · dsimp only
    split
    · simp
    · split <;> simp

theorem decodeAMM_ok {obj : LedgerObject} {e : AMMEntryData}
    (h : decodeAMM obj = .ok e) : obj = LedgerObject.amm e := by
  cases obj <;> simp_all [decodeAMM]

theorem processAMM_ok_inv {b : Backend} {lgr : LedgerInfo} {input : Input}
    {resp : Output} {log : List ReadOp}
    (h : processAMM b lgr input = (.ok resp, log)) :
    ∃ e, b.objects (keyletAmm input.issue1 input.issue2) lgr.seq =
           some (LedgerObject.amm e) ∧
      (b.objects (ObjectKey.account e.account) lgr.seq).isSome ∧
      resp = ammResponse b lgr input e ∧ log = ammReadLog b lgr input e := by
  unfold processAMM at h
  cases hfetch : b.objects (keyletAmm input.issue1 input.issue2) lgr.seq with
  | none => simp only [hfetch] at h; simp at h
  | some obj =>
    simp only [hfetch] at h
    cases hdec : decodeAMM obj with
    | error st => simp only [hdec] at h; simp at h
    | ok e =>
      simp only [hdec] at h
      cases howner : b.objects (ObjectKey.account e.account) lgr.seq with
      | none => simp only [howner] at h; simp at h
      | some o =>
        simp only [howner, Prod.mk.injEq, Except.ok.injEq] at h
        refine ⟨e, ?_, ?_, h.1.symm, h.2.symm⟩
        · simp [hfetch, decodeAMM_ok hdec]
        · simp [howner]

theorem processWithLedger_ok_inv {b : Backend} {lgr : LedgerInfo}
    {input : Input} {resp : Output} {log : List ReadOp}
    (h : processWithLedger b lgr input = (.ok resp, log)) :
    (input.accountID = none ∧ processAMM b lgr input = (.ok resp, log)) ∨
    (∃ a o tail, input.accountID = some a ∧
      b.objects (ObjectKey.account a) lgr.seq = some o ∧
      processAMM b lgr input = (.ok resp, tail) ∧
      log = ReadOp.objectFetch .accountCheck (ObjectKey.account a) lgr.seq :: tail) := by
  unfold processWithLedger at h
  cases ha : input.accountID with
  | none =>
    simp only [ha] at h
    exact Or.inl ⟨rfl, h⟩
  | some a =>
    simp only [ha] at h
    cases ho : b.objects (ObjectKey.account a) lgr.seq with
    | none => simp only [ho] at h; simp at h
    | some o =>
      simp only [ho, Prod.mk.injEq] at h
      refine Or.inr ⟨a, o, (processAMM b lgr input).2, rfl, ho, ?_, h.2.symm⟩
      exact Prod.ext h.1 rfl

theorem handleRequest_ok_inv {b : Backend} {input : Input} {resp : Output}
    {log : List ReadOp}
    (h : handleRequest b input = (.ok resp, log)) :
    ∃ rg lgr hlog tail, b.range = some rg ∧
      getLedgerInfoFromHashOrSeq b input.ledgerHash input.ledgerIndex
        rg.maxSequence = (.ok lgr, hlog) ∧
      processWithLedger b lgr input = (.ok resp, tail) ∧
      log = ReadOp.rangeQuery :: (hlog ++ tail) := by
  unfold handleRequest at h
  cases hrg : b.range with
  | none => simp only [hrg] at h; simp at h
  | some rg =>
    simp only [hrg] at h
    unfold process processResolved at h
    cases heq : getLedgerInfoFromHashOrSeq b input.ledgerHash input.ledgerIndex
        rg.maxSequence with
    | mk r hlog =>
      cases r with
      | error st => simp only [heq] at h; simp at h
      | ok lgrInfo =>
        simp only [heq, Prod.mk.injEq] at h
        exact ⟨rg, lgrInfo, hlog, (processWithLedger b lgrInfo input).2, rfl, heq,
               Prod.ext h.1 rfl, h.2.symm⟩

theorem accountHolds_pinned (b : Backend) (s : Nat) (p : ReadPurpose)
    (a : AccountID) (c : Currency) (i : AccountID) :
    ReadOp.pinnedTo s (accountHolds b s p a c i).2 := by
  rw [accountHolds_snd]
  exact rfl

theorem isFrozen_pinned (b : Backend) (s : Nat) (a : AccountID) (c : Currency)
    (i : AccountID) : ∀ op ∈ (isFrozen b s a c i).2, ReadOp.pinnedTo s op := by
  rw [isFrozen_snd]
  intro op hop
  simp only [List.mem_cons, List.not_mem_nil, or_false] at hop
  rcases hop with rfl | rfl <;> exact rfl

theorem ammReadLog_pinned (b : Backend) (lgr : LedgerInfo) (input : Input)
    (e : AMMEntryData) :
    ∀ op ∈ ammReadLog b lgr input e, ReadOp.pinnedTo lgr.seq op := by
  intro op hop
  unfold ammReadLog at hop
  simp only [getAmmPoolHolds] at hop
  rcases List.mem_append.mp hop with hop | h
  · rcases List.mem_append.mp hop with hop | h
    · rcases List.mem_append.mp hop with hop | h
      · rcases List.mem_append.mp hop with h | h
        · rcases List.mem_cons.mp h with rfl | h
          · exact rfl
          rcases List.mem_cons.mp h with rfl | h
          · exact rfl
          · simp at h
        · rcases List.mem_cons.mp h with rfl | h
          · exact accountHolds_pinned ..
          rcases List.mem_cons.mp h with rfl | h
          · exact accountHolds_pinned ..
          · simp at h
      · cases hacct : input.accountID with
        | none => rw [hacct] at h; simp at h
        | some a =>
          rw [hacct] at h
          rcases List.mem_cons.mp h with rfl | h
          · rw [getAmmLpHolds, getAmmLpHoldsCur]
            exact accountHolds_pinned ..
          · simp at h
    · split at h
      · simp at h
      · exact isFrozen_pinned _ _ _ _ _ op h
  · split at h
    · simp at h
    · exact isFrozen_pinned _ _ _ _ _ op h

theorem ammResponse_ledgerIndex (b : Backend) (lgr : LedgerInfo)
    (input : Input) (e : AMMEntryData) :
    (ammResponse b lgr input e).ledgerIndex = lgr.seq := rfl

/-! ## Claim theorems -/

/-- C1: for every request that produces a successful Response, every backend
object read performed while building it (account-existence check, AMM fetch,
owner-account fetch, both pool-holds reads, LP-holds read, frozen checks) is
issued with exactly the sequence number of the snapshot resolved at the start
of the request (which is the response's `ledger_index`); no read within the
request uses any other sequence. -/
theorem reads_single_sequence (b : Backend) (input : Input) (resp : Output)
    (log : List ReadOp) (h : handleRequest b input = (.ok resp, log)) :
    ∀ op ∈ log, ReadOp.pinnedTo resp.ledgerIndex op := by
  obtain ⟨rg, lgr, hlog, tail, hrg, hh, hw, hl⟩ := handleRequest_ok_inv h
  have hled : resp.ledgerIndex = lgr.seq := by
    rcases processWithLedger_ok_inv hw with ⟨_, hA⟩ | ⟨a, o, t2, ha, ho, hA, hteq⟩ <;>
    · obtain ⟨e, _, _, hresp, _⟩ := processAMM_ok_inv hA
      rw [hresp, ammResponse_ledgerIndex]
  subst hl
  intro op hop
  rw [hled]
  rcases List.mem_cons.mp hop with rfl | hop2
  · exact trivial
  rcases List.mem_append.mp hop2 with hH | hT
  · rw [getLedgerInfo_log b input.ledgerHash input.ledgerIndex rg.maxSequence op
      (by rw [hh]; exact hH)]
    exact trivial
  · rcases processWithLedger_ok_inv hw with ⟨_, hA⟩ | ⟨a, o, t2, ha, ho, hA, hteq⟩
    · obtain ⟨e, _, _, _, hlog2⟩ := processAMM_ok_inv hA
      rw [hlog2] at hT
      exact ammReadLog_pinned b lgr input e op hT
    · subst hteq
      rcases List.mem_cons.mp hT with rfl | hT2
      · exact rfl
      · obtain ⟨e, _, _, _, hlog2⟩ := processAMM_ok_inv hA
        rw [hlog2] at hT2
        exact ammReadLog_pinned b lgr input e op hT2

theorem reads_single_sequence_witness :
    ReadOp.pinnedTo wResp.ledgerIndex
      (ReadOp.objectFetch .ammFetch (ObjectKey.amm xrpIssue wIssue2) 10) :=
  reads_single_sequence wBackend wInput wResp wLog rfl
    (ReadOp.objectFetch .ammFetch (ObjectKey.amm xrpIssue wIssue2) 10)
    (by decide)

/-- C6: for every request the pipeline queries the backing store's known
sequence range before any other backend access; when the store reports no
known range the request fails with `NotReady` having performed no further
reads. -/
theorem range_query_first (b : Backend) (input : Input) :
    (handleRequest b input).2.head? = some ReadOp.rangeQuery ∧
    (b.range = none →
      handleRequest b input = (.error .notReady, [ReadOp.rangeQuery])) := by
  constructor
  · unfold handleRequest
    cases b.range <;> rfl
  · intro hr
    unfold handleRequest
    rw [hr]

theorem range_query_first_witness :
    handleRequest wBackendEmpty wInput = (.error .notReady, [ReadOp.rangeQuery]) :=
  (range_query_first wBackendEmpty wInput).2 rfl

/-- C7: when an `account` filter is supplied and that account does not exist
at the resolved snapshot sequence, the request terminates with `NotFound`
before any AMM object lookup: the only object read issued is the
account-existence check. -/
theorem account_gate_blocks (b : Backend) (input : Input) (rg : LedgerRange)
    (lgr : LedgerInfo) (hlog : List ReadOp) (a : AccountID)
    (hrg : b.range = some rg)
    (hh : getLedgerInfoFromHashOrSeq b input.ledgerHash input.ledgerIndex
      rg.maxSequence = (.ok lgr, hlog))
    (ha : input.accountID = some a)
    (ho : b.objects (ObjectKey.account a) lgr.seq = none) :
    handleRequest b input =
      (.error .actNotFound,
       ReadOp.rangeQuery :: hlog ++
         [ReadOp.objectFetch .accountCheck (ObjectKey.account a) lgr.seq]) ∧
    ∀ p k s, ReadOp.objectFetch p k s ∈ (handleRequest b input).2 →
      p = ReadPurpose.accountCheck := by
  have hmain : handleRequest b input =
      (.error .actNotFound,
       ReadOp.rangeQuery :: hlog ++
         [ReadOp.objectFetch .accountCheck (ObjectKey.account a) lgr.seq]) := by
    unfold handleRequest process processResolved
    simp only [hrg, hh]
    unfold processWithLedger
    simp only [ha, ho]
    rfl
  refine ⟨hmain, ?_⟩
  intro p k s hmem
  rw [hmain] at hmem
  rcases List.mem_cons.mp hmem with hc | hm
  · simp at hc
  rcases List.mem_append.mp hm with hH | hA
  · have := getLedgerInfo_log b input.ledgerHash input.ledgerIndex
      rg.maxSequence (ReadOp.objectFetch p k s) (by rw [hh]; exact hH)
    simp at this
  · simp only [List.mem_cons, List.not_mem_nil, or_false,
      ReadOp.objectFetch.injEq] at hA
    exact hA.1

theorem account_gate_blocks_witness :
    handleRequest wBackendNoAcct wInputAcct =
      (.error .actNotFound,
       ReadOp.rangeQuery :: [ReadOp.headerFetch] ++
         [ReadOp.objectFetch .accountCheck (ObjectKey.account 9) 10]) :=
  (account_gate_blocks wBackendNoAcct wInputAcct
    { minSequence := 1, maxSequence := 10 } wLgr [ReadOp.headerFetch] 9
    rfl rfl rfl rfl).1

theorem issuePairOrdered_comm (a b : Issue) :
    issuePairOrdered a b = issuePairOrdered b a := by
  unfold issuePairOrdered
  split_ifs with h1 h2 h2
  · exfalso
    unfold issueLt at h1 h2
    obtain ⟨ac, aa⟩ := a
    obtain ⟨bc, ba⟩ := b
    dsimp only at h1 h2
    rcases h1 with h1 | ⟨h1, h1a⟩ <;> rcases h2 with h2 | ⟨h2, h2a⟩
    · exact lt_irrefl _ (h1.trans h2)
    · exact lt_irrefl _ (h2 ▸ h1)
    · exact lt_irrefl _ (h1 ▸ h2)
    · exact lt_irrefl _ (h1a.trans h2a)
  · rfl
  · rfl
  · unfold issueLt at h1 h2
    obtain ⟨ac, aa⟩ := a
    obtain ⟨bc, ba⟩ := b
    dsimp only at h1 h2
    simp only [not_or, not_and, not_lt] at h1 h2
    obtain ⟨h1c, h1a⟩ := h1
    obtain ⟨h2c, h2a⟩ := h2
    have hc : ac = bc := le_antisymm h1c h2c
    have ha : aa = ba := le_antisymm (h1a hc.symm) (h2a hc)
    subst hc
    subst ha
    rfl

/-- C2: deriving the AMM object key from `(a1, a2)` yields the same key as
from `(a2, a1)`, and deriving the synthetic LP-token currency from the two
currency codes is likewise order-independent; swapping `asset`/`asset2` in a
request therefore changes neither the AMM lookup key nor the LP-token
identity. -/
theorem amm_key_lpt_order_independent (a1 a2 : Issue) :
    keyletAmm a1 a2 = keyletAmm a2 a1 ∧
    ammLPTCurrency a1.currency a2.currency =
      ammLPTCurrency a2.currency a1.currency := by
  constructor
  · unfold keyletAmm
    rw [issuePairOrdered_comm]
  · unfold ammLPTCurrency
    rw [Nat.min_comm, Nat.max_comm]

/-- C3 (code bug): the request resolver ignores the asset descriptor's
`issuer` member entirely.  For the descriptor with currency 1 and issuer 7
it produces the identity `(1, xrpAccountID)`, whose issuing account is the
native sentinel account and not the requested issuer. -/
theorem getIssue_ignores_issuer :
    getIssue { currency := 1, issuer := some 7 } =
      { currency := 1, account := xrpAccountID } ∧
    (getIssue { currency := 1, issuer := some 7 }).account ≠ 7 := by
  constructor
  · rfl
  · decide

/-- C4: the projector returns the zero-based index
`floor((parentCloseTime - slotStart) / d)` exactly when that index lies in the
valid range `[0, AUCTION_SLOT_TIME_INTERVALS)`; a negative index or one
reaching the sub-interval count yields the "no active interval" sentinel; with
the 20 equal sub-intervals, a `parentCloseTime` exactly at the window's
midpoint yields index 10 and one at or after the window's end yields the
sentinel, for which the call site substitutes the fixed maximum-interval
constant in the `time_interval` output member. -/
theorem auction_time_slot_spec (p s d : Int) (hd : 0 < d) :
    (∀ i : Nat, ammAuctionTimeSlotIdx p s d = some i ↔
      (Int.fdiv (p - s) d = (i : Int) ∧
        (i : Int) < (AUCTION_SLOT_TIME_INTERVALS : Int))) ∧
    ((Int.fdiv (p - s) d < 0 ∨
        (AUCTION_SLOT_TIME_INTERVALS : Int) ≤ Int.fdiv (p - s) d) →
      ammAuctionTimeSlotIdx p s d = none) ∧
    ammAuctionTimeSlotIdx (s + 10 * d) s d = some 10 ∧
    (s + (AUCTION_SLOT_TIME_INTERVALS : Int) * d ≤ p →
      ammAuctionTimeSlotIdx p s d = none) ∧
    (∀ pct slot acct, ammAuctionTimeSlot pct slot = none →
      (auctionJsonFields pct slot acct).head? =
        some ("time_interval",
          Json.num ((AUCTION_SLOT_TIME_INTERVALS : Nat) : Int))) := by
  refine ⟨?_, ?_, ?_, ?_, ?_⟩
  · intro i
    unfold ammAuctionTimeSlotIdx
    simp only [AUCTION_SLOT_TIME_INTERVALS]
    split
    · simp only [Option.some.injEq]
      omega
    · simp only [reduceCtorEq, false_iff, not_and]
      omega
  · intro hout
    unfold ammAuctionTimeSlotIdx
    simp only [AUCTION_SLOT_TIME_INTERVALS] at hout ⊢
    split
    · exfalso; omega
    · rfl
  · have h10 : Int.fdiv (s + 10 * d - s) d = 10 := by
      have he : s + 10 * d - s = 10 * d := by ring
      rw [he, Int.fdiv_eq_ediv _ (le_of_lt hd),
        Int.mul_ediv_cancel _ (ne_of_gt hd)]
    unfold ammAuctionTimeSlotIdx
    rw [h10]
    decide
  · intro hp
    have h20 : (20 : Int) ≤ Int.fdiv (p - s) d := by
      rw [Int.fdiv_eq_ediv _ (le_of_lt hd)]
      rw [Int.le_ediv_iff_mul_le hd]
      have : (AUCTION_SLOT_TIME_INTERVALS : Int) = 20 := by
        norm_num [AUCTION_SLOT_TIME_INTERVALS]
      rw [this] at hp
      linarith
    unfold ammAuctionTimeSlotIdx
    simp only [AUCTION_SLOT_TIME_INTERVALS]
    split
    · exfalso; omega
    · rfl
  · intro pct slot acct hnone
    unfold auctionJsonFields
    rw [hnone]
    rfl

theorem auction_time_slot_spec_witness :
    ammAuctionTimeSlotIdx (0 + 10 * 1) 0 1 = some 10 :=
  (auction_time_slot_spec 0 0 1 (by norm_num)).2.2.1

theorem hasKey_asset_frozen (o : Output) :
    hasKey (ammJsonFields o) "asset_frozen" = o.asset1Frozen.isSome := by
  unfold ammJsonFields hasKey
  cases o.auctionSlot <;> cases o.asset1Frozen <;> cases o.asset2Frozen <;>
    by_cases hv : o.voteSlots.isEmpty <;> simp [hv]

theorem hasKey_asset2_frozen (o : Output) :
    hasKey (ammJsonFields o) "asset2_frozen" = o.asset2Frozen.isSome := by
  unfold ammJsonFields hasKey
  cases o.auctionSlot <;> cases o.asset1Frozen <;> cases o.asset2Frozen <;>
    by_cases hv : o.voteSlots.isEmpty <;> simp [hv]

theorem hasKey_auction_slot (o : Output) :
    hasKey (ammJsonFields o) "auction_slot" = o.auctionSlot.isSome := by
  unfold ammJsonFields hasKey
  cases o.auctionSlot <;> cases o.asset1Frozen <;> cases o.asset2Frozen <;>
    by_cases hv : o.voteSlots.isEmpty <;> simp [hv]

theorem ammResponse_asset1Frozen (b : Backend) (lgr : LedgerInfo)
    (input : Input) (e : AMMEntryData) :
    (ammResponse b lgr input e).asset1Frozen =
      if (accountHolds b lgr.seq .poolHold e.account input.issue1.currency
            input.issue1.account).1.isXRP
      then none
      else some (isFrozen b lgr.seq e.account input.issue1.currency
            input.issue1.account).1 := rfl

theorem ammResponse_asset2Frozen (b : Backend) (lgr : LedgerInfo)
    (input : Input) (e : AMMEntryData) :
    (ammResponse b lgr input e).asset2Frozen =
      if (accountHolds b lgr.seq .poolHold e.account input.issue2.currency
            input.issue2.account).1.isXRP
      then none
      else some (isFrozen b lgr.seq e.account input.issue2.currency
            input.issue2.account).1 := rfl

theorem ammResponse_auctionSlot (b : Backend) (lgr : LedgerInfo)
    (input : Input) (e : AMMEntryData) :
    (ammResponse b lgr input e).auctionSlot =
      match e.auctionSlot with
      | some slot =>
        match slot.account with
        | some acct => some (buildAuctionJson lgr.parentCloseTime slot acct)
        | none => none
      | none => none := rfl

theorem ammResponse_lpToken (b : Backend) (lgr : LedgerInfo) (input : Input)
    (e : AMMEntryData) :
    (ammResponse b lgr input e).lpToken =
      Json.amount (match input.accountID with
        | some a => (getAmmLpHolds b lgr.seq e a).1
        | none => e.lpTokenBalance) := rfl

/-- C5: in every successful Response the `asset_frozen` member is present in
the serialized `amm` object exactly when the first asset is non-native, and
`asset2_frozen` exactly when the second asset is non-native; for a native
asset the member is absent altogether. -/
theorem frozen_fields_iff (b : Backend) (input : Input) (resp : Output)
    (log : List ReadOp) (h : handleRequest b input = (.ok resp, log)) :
    (hasKey (ammJsonFields resp) "asset_frozen" = true ↔
      input.issue1.currency ≠ xrpCurrency) ∧
    (hasKey (ammJsonFields resp) "asset2_frozen" = true ↔
      input.issue2.currency ≠ xrpCurrency) := by
  obtain ⟨rg, lgr, hlog, tail, hrg, hh, hw, hl⟩ := handleRequest_ok_inv h
  have hre : ∃ e, resp = ammResponse b lgr input e := by
    rcases processWithLedger_ok_inv hw with ⟨_, hA⟩ | ⟨a, o, t2, ha, ho, hA, _⟩ <;>
    · obtain ⟨e, _, _, hresp, _⟩ := processAMM_ok_inv hA
      exact ⟨e, hresp⟩
  obtain ⟨e, hresp⟩ := hre
  subst hresp
  constructor
  · rw [hasKey_asset_frozen, ammResponse_asset1Frozen, accountHolds_isXRP]
    by_cases hc : input.issue1.currency = xrpCurrency
    · simp [hc]
    · simp [hc]
  · rw [hasKey_asset2_frozen, ammResponse_asset2Frozen, accountHolds_isXRP]
    by_cases hc : input.issue2.currency = xrpCurrency
    · simp [hc]
    · simp [hc]

theorem frozen_fields_iff_witness :
    hasKey (ammJsonFields wResp) "asset2_frozen" = true :=
  (frozen_fields_iff wBackend wInput wResp wLog rfl).2.mpr (by decide)

/-- C9: the `auction_slot` member appears in the serialized `amm` object
exactly when the stored AuctionSlot sub-object exists and contains an Account
field; an AuctionSlot without an Account contributes no member at all. -/
theorem auction_slot_presence (b : Backend) (input : Input) (resp : Output)
    (log : List ReadOp) (rg : LedgerRange) (lgr : LedgerInfo)
    (hlog : List ReadOp) (e : AMMEntryData)
    (hrg : b.range = some rg)
    (hh : getLedgerInfoFromHashOrSeq b input.ledgerHash input.ledgerIndex
      rg.maxSequence = (.ok lgr, hlog))
    (hf : b.objects (keyletAmm input.issue1 input.issue2) lgr.seq =
      some (LedgerObject.amm e))
    (h : handleRequest b input = (.ok resp, log)) :
    hasKey (ammJsonFields resp) "auction_slot" = true ↔
      ∃ slot, e.auctionSlot = some slot ∧ slot.account.isSome := by
  obtain ⟨rg2, lgr2, hlog2, tail, hrg2, hh2, hw, hl⟩ := handleRequest_ok_inv h
  rw [hrg] at hrg2
  injection hrg2 with hrg2
  subst hrg2
  rw [hh] at hh2
  simp only [Prod.mk.injEq, Except.ok.injEq] at hh2
  obtain ⟨hlg, hhl⟩ := hh2
  subst hlg
  have hre : resp = ammResponse b lgr input e := by
    rcases processWithLedger_ok_inv hw with ⟨_, hA⟩ | ⟨a, o, t2, ha, ho, hA, _⟩ <;>
    · obtain ⟨e2, hf2, _, hresp, _⟩ := processAMM_ok_inv hA
      rw [hf] at hf2
      simp only [Option.some.injEq, LedgerObject.amm.injEq] at hf2
      subst hf2
      exact hresp
  subst hre
  rw [hasKey_auction_slot, ammResponse_auctionSlot]
  cases e.auctionSlot with
  | none => simp
  | some slot =>
    cases hacc : slot.account with
    | none => simp [hacc]
    | some acct => simp [hacc]

theorem auction_slot_presence_witness :
    hasKey (ammJsonFields wResp) "auction_slot" = true :=
  (auction_slot_presence wBackend wInput wResp wLog
    { minSequence := 1, maxSequence := 10 } wLgr [ReadOp.headerFetch] wAmmEntry
    rfl rfl rfl rfl).mpr ⟨wSlot, rfl, rfl⟩

theorem isLpHoldRead_objectFetch (p : ReadPurpose) (k : ObjectKey) (s : Nat) :
    ReadOp.isLpHoldRead (ReadOp.objectFetch p k s) = (p == ReadPurpose.lpHold) :=
  rfl

theorem ammReadLog_lp_count (b : Backend) (lgr : LedgerInfo) (input : Input)
    (e : AMMEntryData) :
    ((ammReadLog b lgr input e).filter ReadOp.isLpHoldRead).length =
      match input.accountID with
      | some _ => 1
      | none => 0 := by
  have hpool1 : ReadOp.isLpHoldRead
      (accountHolds b lgr.seq .poolHold e.account input.issue1.currency
        input.issue1.account).2 = false := by
    rw [accountHolds_snd]
    exact isLpHoldRead_objectFetch ..
  have hpool2 : ReadOp.isLpHoldRead
      (accountHolds b lgr.seq .poolHold e.account input.issue2.currency
        input.issue2.account).2 = false := by
    rw [accountHolds_snd]
    exact isLpHoldRead_objectFetch ..
  have hlp : ∀ a, ReadOp.isLpHoldRead (getAmmLpHolds b lgr.seq e a).2 = true := by
    intro a
    rw [getAmmLpHolds, getAmmLpHoldsCur, accountHolds_snd]
    exact isLpHoldRead_objectFetch ..
  unfold ammReadLog
  simp only [getAmmPoolHolds, List.filter_append, List.length_append,
    isFrozen_snd]
  cases input.accountID with
  | none =>
    simp [hpool1, hpool2, isLpHoldRead_objectFetch,
      apply_ite (List.filter ReadOp.isLpHoldRead), apply_ite List.length]
  | some a =>
    simp [hpool1, hpool2, hlp a, isLpHoldRead_objectFetch,
      apply_ite (List.filter ReadOp.isLpHoldRead), apply_ite List.length]

/-- C8: when no holder account is specified the LP-token amount in the
Response is the decoded AMM entry's own `lpTokenBalance` field and no
LP-holds backend read is issued; an LP-holds backend read is issued (exactly
once) only when a holder account is specified. -/
theorem lp_token_source (b : Backend) (input : Input) (resp : Output)
    (log : List ReadOp) (rg : LedgerRange) (lgr : LedgerInfo)
    (hlog : List ReadOp) (e : AMMEntryData)
    (hrg : b.range = some rg)
    (hh : getLedgerInfoFromHashOrSeq b input.ledgerHash input.ledgerIndex
      rg.maxSequence = (.ok lgr, hlog))
    (hf : b.objects (keyletAmm input.issue1 input.issue2) lgr.seq =
      some (LedgerObject.amm e))
    (h : handleRequest b input = (.ok resp, log)) :
    (input.accountID = none →
      resp.lpToken = Json.amount e.lpTokenBalance ∧
      (log.filter ReadOp.isLpHoldRead).length = 0) ∧
    (input.accountID.isSome →
      (log.filter ReadOp.isLpHoldRead).length = 1) := by
  obtain ⟨rg2, lgr2, hlog2, tail, hrg2, hh2, hw, hl⟩ := handleRequest_ok_inv h
  rw [hrg] at hrg2
  injection hrg2 with hrg2
  subst hrg2
  rw [hh] at hh2
  simp only [Prod.mk.injEq, Except.ok.injEq] at hh2
  obtain ⟨hlg, hhl⟩ := hh2
  subst hlg
  subst hhl
  have hflog : hlog.filter ReadOp.isLpHoldRead = [] := by
    rw [List.filter_eq_nil_iff]
    intro a ha
    rw [getLedgerInfo_log b input.ledgerHash input.ledgerIndex rg.maxSequence a
      (by rw [hh]; exact ha)]
    simp [ReadOp.isLpHoldRead]
  rcases processWithLedger_ok_inv hw with ⟨haN, hA⟩ | ⟨a, o, t2, haS, ho, hA, hteq⟩
  · obtain ⟨e2, hf2, _, hresp, hlogA⟩ := processAMM_ok_inv hA
    rw [hf] at hf2
    simp only [Option.some.injEq, LedgerObject.amm.injEq] at hf2
    subst hf2
    subst hresp
    constructor
    · intro _
      refine ⟨?_, ?_⟩
      · rw [ammResponse_lpToken, haN]
      · rw [hl, hlogA]
        simp [List.filter_cons, List.filter_append, hflog,
          ammReadLog_lp_count b lgr input e, haN, ReadOp.isLpHoldRead]
    · intro hS
      rw [haN] at hS
      simp at hS
  · obtain ⟨e2, hf2, _, hresp, hlogA⟩ := processAMM_ok_inv hA
    rw [hf] at hf2
    simp only [Option.some.injEq, LedgerObject.amm.injEq] at hf2
    subst hf2
    subst hresp
    constructor
    · intro hN
      rw [haS] at hN
      simp at hN
    · intro _
      rw [hl, hteq, hlogA]
      simp [List.filter_cons, List.filter_append, hflog,
        ammReadLog_lp_count b lgr input e, haS, ReadOp.isLpHoldRead,
        isLpHoldRead_objectFetch]

theorem lp_token_source_witness :
    wResp.lpToken = Json.amount wAmmEntry.lpTokenBalance ∧
    (wLog.filter ReadOp.isLpHoldRead).length = 0 :=
  (lp_token_source wBackend wInput wResp wLog
    { minSequence := 1, maxSequence := 10 } wLgr [ReadOp.headerFetch] wAmmEntry
    rfl rfl rfl rfl).1 rfl

theorem splitSep_ne_nil (sep : Char) (l : List Char) : splitSep sep l ≠ [] := by
  induction l with
  | nil => simp [splitSep]
  | cons c cs ih =>
    unfold splitSep
    split
    · simp
    · cases hs : splitSep sep cs <;> simp

theorem tokLoop_spec (sep : Char) (cs : List Char) : ∀ tok acc,
    tokLoop sep cs tok acc =
      if [] ∈ consHead tok (splitSep sep cs) then Except.error KeyError.emptyToken
      else Except.ok (acc ++ consHead tok (splitSep sep cs)) := by
  induction cs with
  | nil =>
    intro tok acc
    unfold tokLoop saveToken splitSep consHead
    by_cases ht : tok = [] <;> simp [ht]
  | cons c rest ih =>
    intro tok acc
    unfold tokLoop
    by_cases hc : c = sep
    · rw [if_pos hc]
      unfold saveToken
      subst hc
      have hsp : splitSep c (c :: rest) = [] :: splitSep c rest := by
        simp [splitSep]
      rw [hsp]
      obtain ⟨t, ts, hs⟩ := List.exists_cons_of_ne_nil (splitSep_ne_nil c rest)
      by_cases ht : tok = []
      · rw [if_pos ht]
        subst ht
        simp [consHead]
      · rw [if_neg ht]
        dsimp only
        rw [ih]
        rw [hs]
        simp only [consHead, List.append_nil]
        by_cases hm : [] ∈ t :: ts
        · simp [hm, ht]
        · simp [hm, ht, List.mem_cons]
    · rw [if_neg hc]
      rw [ih]
      obtain ⟨t, ts, hs⟩ := List.exists_cons_of_ne_nil (splitSep_ne_nil sep rest)
      have hsp : splitSep sep (c :: rest) = (c :: t) :: ts := by
        unfold splitSep
        rw [if_neg hc, hs]
      rw [hsp, hs]
      simp [consHead, List.append_assoc]

theorem mkTokenizer_spec (sep : Char) (key : List Char) :
    mkTokenizer sep key =
      if key = [] then Except.error KeyError.emptyKey
      else if [] ∈ splitSep sep key then Except.error KeyError.emptyToken
      else Except.ok (splitSep sep key) := by
  unfold mkTokenizer
  by_cases hk : key = []
  · simp [hk]
  · rw [if_neg hk, if_neg hk, tokLoop_spec]
    obtain ⟨t, ts, hs⟩ := List.exists_cons_of_ne_nil (splitSep_ne_nil sep key)
    rw [hs]
    simp [consHead]

theorem drain_eq_getElem (n : Nat) : ∀ q : List (List Char), drain q n = q[n]? := by
  induction n with
  | zero => intro q; cases q <;> simp [drain, tokenizerNext]
  | succ n ih =>
    intro q
    cases q with
    | nil =>
      rw [drain, ih]
      simp [tokenizerNext]
    | cons t ts =>
      rw [drain, ih]
      simp [tokenizerNext]

/-- C10: the Tokenizer constructor throws a KeyException exactly when the key
is empty or contains an empty separator-delimited segment (leading, trailing
or doubled separator); otherwise successive `next()` calls return exactly the
separator-delimited segments left to right and then `none` on every further
call. -/
theorem tokenizer_correct (sep : Char) (key : List Char) :
    ((∃ l, mkTokenizer sep key = Except.ok l) ↔
      (key ≠ [] ∧ [] ∉ splitSep sep key)) ∧
    (∀ l, mkTokenizer sep key = Except.ok l →
      l = splitSep sep key ∧ ∀ n, drain l n = (splitSep sep key)[n]?) := by
  rw [mkTokenizer_spec]
  constructor
  · by_cases hk : key = [] <;> by_cases hm : [] ∈ splitSep sep key <;>
      simp [hk, hm]
  · intro l hl
    by_cases hk : key = [] <;> by_cases hm : [] ∈ splitSep sep key <;>
      simp [hk, hm] at hl
    subst hl
    exact ⟨rfl, fun n => drain_eq_getElem n _⟩

theorem tokenizer_correct_witness :
    drain (splitSep '.' ['a', 'b', '.', 'c']) 1 =
      (splitSep '.' ['a', 'b', '.', 'c'])[1]? :=
  ((tokenizer_correct '.' ['a', 'b', '.', 'c']).2
    (splitSep '.' ['a', 'b', '.', 'c']) rfl).2 1
